import Mathlib

/-!
Verification of the upload-and-orchestration pipeline in `oldclient.py`.

The development shallowly embeds the pipeline's pure control flow:
  * `sanitize_name` — the machine-name sanitizer (§4.1 of the spec);
  * `retryGo` / `attemptFile` / `processFiles` / `upload_to_minio` — the
    object-storage uploader with its per-file retry loop and the 80%
    success-rate threshold (§4.2);
  * `check_firmware_update_status` / `processMachine` — the per-machine
    pipeline: classify, cleanup-on-success, upload-on-failure (§4.5);
  * `master_signal_after` — the downstream-trigger decision (§4.6 step 7);
  * `update_machine_status_counts` — the best-effort analytics counter (§4.3);
  * `walkFiles` — the `os.walk`-based file enumeration used by the uploader.

External effects (MinIO, MongoDB, the filesystem) are modelled as explicit
environment records carrying the outcome of each fallible interaction;
Python exceptions become `Except` values, and a `try/except` block becomes
a total `match` on the body's `Except` result.
-/

namespace Pipeline

/-! ### Name sanitizer (`sanitize_name`, oldclient.py lines 184–210)

Strings are modelled as `List Char`.  Python's `str.lower()` is modelled on
the ASCII range (`lowerCh`); characters outside ASCII are removed by the
`[^a-z0-9.-]` filter in any case.  Each `re.sub`/`strip` step of the source
is one definition below, applied in the source's order. -/

/-- ASCII lowercasing, as applied by `name.lower()` to the characters that
can survive the later `[^a-z0-9.-]` filter. -/
def lowerCh (c : Char) : Char :=
  if 65 ≤ c.toNat ∧ c.toNat ≤ 90 then Char.ofNat (c.toNat + 32) else c

/-- `name.replace("_", "-").replace(" ", "-")`, per character. -/
def replaceSep (c : Char) : Char :=
  if c = '_' ∨ c = ' ' then '-' else c

/-- The character class `[a-z0-9]` of the source's boundary checks. -/
def isLowerAlphaNum (c : Char) : Bool :=
  (97 ≤ c.toNat && c.toNat ≤ 122) || (48 ≤ c.toNat && c.toNat ≤ 57)

/-- The character class kept by `re.sub(r"[^a-z0-9.-]", "", name)`. -/
def allowedChar (c : Char) : Bool :=
  isLowerAlphaNum c || c == '.' || c == '-'

/-- The characters stripped by `name.strip(".-")`. -/
def isDotDash (c : Char) : Bool :=
  c == '.' || c == '-'

/-- `re.sub(r"[c]+", "c", name)`: collapse each maximal run of `c` to a
single occurrence (the model keeps the last character of each run). -/
def collapseRuns (c : Char) : List Char → List Char
  | [] => []
  | [a] => [a]
  | a :: b :: rest =>
    if a = c ∧ b = c then collapseRuns c (b :: rest)
    else a :: collapseRuns c (b :: rest)

/-- Left part of `name.strip(".-")`. -/
def lstrip (l : List Char) : List Char := l.dropWhile isDotDash

/-- Right part of `name.strip(".-")`. -/
def rstrip (l : List Char) : List Char := (l.reverse.dropWhile isDotDash).reverse

/-- `name.strip(".-")`. -/
def stripEnds (l : List Char) : List Char := rstrip (lstrip l)

/-- `if len(name) > 0 and not re.match(r"^[a-z0-9]", name): name = "a" + name`. -/
def fixHead (l : List Char) : List Char :=
  match l with
  | [] => []
  | a :: rest => if isLowerAlphaNum a then a :: rest else 'a' :: a :: rest

/-- `re.match(r"[a-z0-9]$", name)`: `re.match` anchors at the START of the
string, so this pattern matches iff the whole string is a single
alphanumeric character (or one alphanumeric character followed by one final
newline, which `$` permits) — NOT iff the last character is alphanumeric. -/
def matchAlnumEnd (l : List Char) : Bool :=
  match l with
  | [a] => isLowerAlphaNum a
  | [a, b] => isLowerAlphaNum a && b == '\n'
  | _ => false

/-- `if len(name) > 0 and not re.match(r"[a-z0-9]$", name): name = name + "z"`,
as the source actually behaves: because of the start-anchored `re.match`,
every name other than a single alphanumeric character gets `z` appended. -/
def fixLast (l : List Char) : List Char :=
  match l with
  | [] => []
  | _ => if matchAlnumEnd l then l else l ++ ['z']

/-- The last-character fix as the source's comment ("Ensure it starts and
ends with a letter or number") and the spec's words ("if non-empty and last
character is not alphanumeric, append z") intend it: append `z` only when
the last character is not alphanumeric. -/
def fixLastIntent (l : List Char) : List Char :=
  match l.getLast? with
  | none => l
  | some a => if isLowerAlphaNum a then l else l ++ ['z']

/-- `sanitize_name` from oldclient.py, step by step in the source's order:
lowercase, separator replacement, invalid-character filter, run collapsing
for `-` then `.`, end stripping, and the two boundary fixes (the last one
with the source's start-anchored `re.match` behavior). -/
def sanitize_name (s : List Char) : List Char :=
  fixLast (fixHead (stripEnds (collapseRuns '.' (collapseRuns '-'
    ((s.map (fun c => replaceSep (lowerCh c))).filter allowedChar)))))

/-- The sanitizer as the spec's §4.1 words describe it: identical to
`sanitize_name` except that the final step is `fixLastIntent`. -/
def sanitize_name_intent (s : List Char) : List Char :=
  fixLastIntent (fixHead (stripEnds (collapseRuns '.' (collapseRuns '-'
    ((s.map (fun c => replaceSep (lowerCh c))).filter allowedChar)))))

/-- `sanitize_name` at the `String` interface of the source. -/
def sanitizeStr (s : String) : String :=
  String.mk (sanitize_name s.data)

/-- No two adjacent characters of the list are both equal to `c` (the state
in which `re.sub(r"[c]+", "c", ·)` is the identity). -/
def noAdj (c : Char) : List Char → Bool
  | [] => true
  | [_] => true
  | a :: b :: rest => if a = c ∧ b = c then false else noAdj c (b :: rest)

/-- The invariant established by `sanitize_name`: only characters of
`[a-z0-9.-]`, no run of two hyphens or two dots, and alphanumeric first and
last characters.  `sanitize_name` is the identity on such strings. -/
def goodName (l : List Char) : Prop :=
  (∀ c ∈ l, allowedChar c = true) ∧ noAdj '-' l = true ∧ noAdj '.' l = true ∧
  (∀ a, l.head? = some a → isLowerAlphaNum a = true) ∧
  (∀ a, l.getLast? = some a → isLowerAlphaNum a = true)

/-! ### Object-storage uploader (`upload_to_minio`, oldclient.py lines 212–326)

A file's fallible upload attempts are an oracle `succeeds : Nat → Bool`
(whether `client.fput_object` succeeds on attempt number `i`, counting from
0, mirroring `for attempt in range(3)`).  `RetryOutcome` records how many
attempts were made, whether the file ended up uploaded, and how many
1-second `time.sleep(1)` delays ran. -/

/-- Outcome of the per-file retry loop. -/
structure RetryOutcome where
  attempts : Nat
  ok : Bool
  sleeps : Nat
deriving DecidableEq, Repr

/-- The loop `for attempt in range(...)` at oldclient.py lines 281–291:
on success, break; on failure with attempts remaining, sleep 1 second and
retry; on the last attempt, re-raise (caught by the per-file handler). -/
def retryGo (succeeds : Nat → Bool) (attempt : Nat) : Nat → RetryOutcome
  | 0 => ⟨0, false, 0⟩
  | r + 1 =>
    if succeeds attempt then ⟨1, true, 0⟩
    else if r = 0 then ⟨1, false, 0⟩
    else
      let o := retryGo succeeds (attempt + 1) r
      ⟨o.attempts + 1, o.ok, o.sleeps + 1⟩

/-- One file's upload: `range(3)`, i.e. at most 3 attempts. -/
def attemptFile (succeeds : Nat → Bool) : RetryOutcome :=
  retryGo succeeds 0 3

/-- Whether one file ends up uploaded after the retry loop. -/
def fileOk (succeeds : Nat → Bool) : Bool :=
  (attemptFile succeeds).ok

/-- The per-file loop of oldclient.py lines 263–296: every file is attempted;
a file whose retries are exhausted increments `error_count` and processing
continues with the next file.  Returns `(upload_count, error_count)`. -/
def processFiles : List (Nat → Bool) → Nat × Nat
  | [] => (0, 0)
  | f :: rest =>
    let r := processFiles rest
    if fileOk f then (r.1 + 1, r.2) else (r.1, r.2 + 1)

/-- Environment of one `upload_to_minio` call: whether `get_minio_client`
returns without raising, whether `os.path.isdir(output_path)` holds, whether
the bucket check/creation succeeds, and the files found by the walk (each
with its per-attempt outcome oracle). -/
structure UploadEnv where
  clientOk : Bool
  dirExists : Bool
  bucketOk : Bool
  files : List (Nat → Bool)

/-- Observable outcome of `upload_to_minio`: the returned boolean plus the
side effects the claims speak about (whether any bucket operation was
reached, and the final counters). -/
structure UploadResult where
  ok : Bool
  bucketTouched : Bool
  uploaded : Nat
  errors : Nat
  total : Nat
deriving DecidableEq, Repr

/-- The `UploadResult` of a call that performed no remote operation. -/
def noEffect (b : Bool) : UploadResult := ⟨b, false, 0, 0, 0⟩

/-- Body of `upload_to_minio` (inside its outer `try`): client construction
(line 219; raising propagates to the outer handler), the `os.path.isdir`
precondition (lines 226–230), the bucket check/creation with its own local
handler (lines 235–245), the zero-file trivial success (lines 248–253), the
per-file upload loop, and the final rate-thresholded report (lines 298–319).
The float test `(upload_count / total_files) * 100 >= 80` is modelled by the
exact comparison `total * 4 ≤ uploaded * 5`, which agrees with the float
test at every realistic file count. -/
def uploadBody (env : UploadEnv) : Except Unit UploadResult :=
  if env.clientOk = false then Except.error ()
  else if env.dirExists = false then Except.ok (noEffect false)
  else if env.bucketOk = false then Except.ok ⟨false, true, 0, 0, 0⟩
  else
    let total := env.files.length
    if total = 0 then Except.ok ⟨true, true, 0, 0, 0⟩
    else
      let r := processFiles env.files
      if 0 < r.1 then
        if total * 4 ≤ r.1 * 5 then Except.ok ⟨true, true, r.1, r.2, total⟩
        else Except.ok ⟨false, true, r.1, r.2, total⟩
      else Except.ok ⟨false, true, r.1, r.2, total⟩

/-- `upload_to_minio`: the outer `try/except` (lines 214 and 321–326) turns
any escaping exception into a plain `return False`. -/
def upload_to_minio (env : UploadEnv) : UploadResult :=
  match uploadBody env with
  | Except.ok r => r
  | Except.error _ => noEffect false

/-! ### Update-status classification (`check_firmware_update_status`,
oldclient.py lines 416–460) -/

/-- Environment of one classification: whether each required log file exists,
and the external classifier's result (`Except.error` models
`determine_update_type_and_check` raising). -/
structure ClassifyEnv where
  installSetLogsExists : Bool
  ciDebugExists : Bool
  classifierResult : Except Unit (List Char)

/-- `check_firmware_update_status`: missing `installSetLogs.log` or
`ciDebug.log` returns `False`; otherwise the external classifier runs and
success is the presence of the marker character in its result string; any
exception is caught and `False` is returned. -/
def check_firmware_update_status (env : ClassifyEnv) : Bool :=
  if env.installSetLogsExists = false then false
  else if env.ciDebugExists = false then false
  else
    match env.classifierResult with
    | Except.error _ => false
    | Except.ok r => r.contains '✅'

/-! ### Per-machine pipeline (`main`, oldclient.py lines 546–609) -/

/-- Environment of one machine's run through `main`'s loop body.
`outputDirPresent` is the `os.path.exists(machine_output_path)` guard at
line 585; `removeOk` is whether `shutil.rmtree` completes without raising
(its exception is only logged, lines 593–597). -/
structure MachineEnv where
  prep : Bool
  extract : Bool
  classify : ClassifyEnv
  upload : UploadEnv
  outputDirPresent : Bool
  removeOk : Bool

/-- Observable outcome of one machine's run: whether its output directory
was removed, the success/failure counter deltas, how many entries were added
to the pipeline-failure list, and whether/how the upload went. -/
structure MachineResult where
  removedDir : Bool
  successDelta : Nat
  failureDelta : Nat
  pipelineFailDelta : Nat
  uploadAttempted : Bool
  uploadOk : Bool
deriving DecidableEq, Repr

/-- One iteration of `main`'s machine loop: preparation failure or extraction
failure records a pipeline failure and stops; a successful classification
increments the success counter and attempts to remove the machine's output
directory — the directory ends up removed only if it exists (line 585's
guard) and `shutil.rmtree` does not raise (a raise is logged and swallowed,
lines 593–597); a failed classification increments the failure counter and
invokes `upload_to_minio`, recording an extra pipeline failure if the upload
fails. -/
def processMachine (m : MachineEnv) : MachineResult :=
  if m.prep = false then ⟨false, 0, 0, 1, false, false⟩
  else if m.extract = false then ⟨false, 0, 0, 1, false, false⟩
  else if check_firmware_update_status m.classify then
    ⟨m.outputDirPresent && m.removeOk, 1, 0, 0, false, false⟩
  else
    let u := upload_to_minio m.upload
    ⟨false, 0, 1, if u.ok then 0 else 1, true, u.ok⟩

/-! ### Downstream trigger (`main`, oldclient.py lines 641–657) -/

/-- `write_master_signal(b)`: the marker file is present afterwards iff `b`
(touch creates it, unlink removes it). -/
def write_master_signal (shouldRun : Bool) : Bool := shouldRun

/-- The end-of-run trigger decision: if the output root holds zero machine
subdirectories the signal is cleared regardless of failures; otherwise the
signal is set iff the failure counter is positive. Returns whether the
marker file exists after the run. -/
def master_signal_after (outputDirCount failureCount : Nat) : Bool :=
  if outputDirCount = 0 then write_master_signal false
  else if 0 < failureCount then write_master_signal true
  else write_master_signal false

/-! ### Analytics counter (`update_machine_status_counts`,
oldclient.py lines 368–414) -/

/-- The persisted "Machine update status count" document. -/
structure CounterDoc where
  successful_updates : Int
  failed_updates : Int
deriving DecidableEq, Repr

/-- Create-or-increment semantics of the Mongo write: absent document is
created with the deltas as initial values, otherwise both fields are
incremented (`$inc`). -/
def applyCounts (doc : Option CounterDoc) (s f : Int) : CounterDoc :=
  match doc with
  | none => ⟨s, f⟩
  | some d => ⟨d.successful_updates + s, d.failed_updates + f⟩

/-- Environment of one counter update: whether connecting (including reading
the `MONGO_*` configuration) succeeds, whether `find_one` succeeds and what
it returns, and whether the insert/update succeeds. -/
structure MongoEnv where
  connectOk : Bool
  findOk : Bool
  doc : Option CounterDoc
  writeOk : Bool
deriving DecidableEq, Repr

/-- Body of `update_machine_status_counts` (inside its `try`): any failing
step raises. -/
def mongoBody (env : MongoEnv) (s f : Int) : Except Unit CounterDoc :=
  if env.connectOk = false then Except.error ()
  else if env.findOk = false then Except.error ()
  else
    let newDoc := applyCounts env.doc s f
    if env.writeOk = false then Except.error () else Except.ok newDoc

/-- `update_machine_status_counts`: the catch-all handler logs and swallows
every exception, so the caller always gets a normal return.  The result
records whether the write went through and, if so, the written document. -/
def update_machine_status_counts (env : MongoEnv) (s f : Int) :
    Bool × Option CounterDoc :=
  match mongoBody env s f with
  | Except.ok d => (true, some d)
  | Except.error _ => (false, none)

/-! ### File enumeration (`os.walk` loop, oldclient.py lines 263–270)

A directory tree: each node holds its files and its subdirectories in the
order `os.scandir` lists them (an order the OS does not sort).  File and
directory names are modelled as naturals; `sortNat` models Python's
`sorted(files)` (ascending order). -/

/-- `sorted(files)`: ascending sort of one directory's file names. -/
def sortNat (l : List Nat) : List Nat := List.insertionSort (· ≤ ·) l

mutual
/-- A directory node: its files and its subdirectories in listing order. -/
inductive FTree : Type where
  | node : List Nat → FForest → FTree
/-- A list of named subdirectories, in listing order. -/
inductive FForest : Type where
  | nil : FForest
  | cons : Nat → FTree → FForest → FForest
end

mutual
/-- The sequence of relative file paths attempted by the upload loop:
`os.walk` yields the root's triple first (its files iterated in
`sorted(files)` order), then recurses into each subdirectory in listing
order, depth-first. -/
def walkFiles : FTree → List (List Nat)
  | FTree.node files subs => (sortNat files).map (fun f => [f]) ++ walkForest subs
/-- `os.walk` over a forest of subdirectories, in listing order. -/
def walkForest : FForest → List (List Nat)
  | FForest.nil => []
  | FForest.cons d t rest => (walkFiles t).map (fun p => d :: p) ++ walkForest rest
end

mutual
/-- Whether a relative path names a file of the tree. -/
def hasFile : FTree → List Nat → Bool
  | FTree.node files subs, p =>
    match p with
    | [] => false
    | [f] => files.contains f
    | d :: q => hasFileForest subs d q
/-- Lookup of `d/q` among a forest of subdirectories. -/
def hasFileForest : FForest → Nat → List Nat → Bool
  | FForest.nil, _, _ => false
  | FForest.cons name t rest, d, q =>
    (if name = d then hasFile t q else false) || hasFileForest rest d q
end

/-- Lexicographic order on relative paths (a path that is a strict prefix of
another comes first), the order of the sorted full-path sequence the claim
describes. -/
def lexLe : List Nat → List Nat → Bool
  | [], _ => true
  | _ :: _, [] => false
  | a :: x, b :: y => if a < b then true else if b < a then false else lexLe x y

/-- Whether a sequence of paths is sorted under `lexLe`. -/
def pathsSorted : List (List Nat) → Bool
  | [] => true
  | [_] => true
  | p :: q :: rest => lexLe p q && pathsSorted (q :: rest)

/-- The singleton (root-level) paths of an enumeration, in order. -/
def topOnly (ps : List (List Nat)) : List Nat :=
  ps.filterMap (fun p => match p with | [f] => some f | _ => none)

/-- The files of a tree's root directory. -/
def rootFiles : FTree → List Nat
  | FTree.node files _ => files

/-- A tree with root file `5` and a subdirectory `3` holding file `4`. -/
def treeUnsorted : FTree :=
  FTree.node [5] (FForest.cons 3 (FTree.node [4] FForest.nil) FForest.nil)

/-- A machine that passed preparation and extraction but whose
`installSetLogs.log` is missing; its upload environment is healthy. -/
def machineMissingLog : MachineEnv :=
  ⟨true, true, ⟨false, true, Except.ok []⟩, ⟨true, true, true, []⟩, true, true⟩

/-- A machine whose update classifies as successful but whose output
directory removal raises inside `shutil.rmtree`. -/
def machineRemoveFails : MachineEnv :=
  ⟨true, true, ⟨true, true, Except.ok ['✅']⟩, ⟨true, true, true, []⟩, true, false⟩

/-- A machine whose update classifies as successful and whose output
directory exists and is removed without error. -/
def machineCleanRun : MachineEnv :=
  ⟨true, true, ⟨true, true, Except.ok ['✅']⟩, ⟨true, true, true, []⟩, true, true⟩

/-- A batch of 10 files of which 8 upload on the first attempt. -/
def envEightOfTen : UploadEnv :=
  ⟨true, true, true,
    List.replicate 8 (fun _ => true) ++ List.replicate 2 (fun _ => false)⟩

/-! ## Helper lemmas -/

/-- Closed form of the 3-attempt retry loop. -/
theorem attemptFile_eq (s : Nat → Bool) :
    attemptFile s =
      if s 0 then ⟨1, true, 0⟩
      else if s 1 then ⟨2, true, 1⟩
      else if s 2 then ⟨3, true, 2⟩
      else ⟨3, false, 2⟩ := by
  cases h0 : s 0 <;> cases h1 : s 1 <;> cases h2 : s 2 <;>
    simp [attemptFile, retryGo, h0, h1, h2]

/-- Every file of a batch ends up counted, either as uploaded or as failed. -/
theorem processFiles_total (files : List (Nat → Bool)) :
    (processFiles files).1 + (processFiles files).2 = files.length := by
  induction files with
  | nil => rfl
  | cons f rest ih =>
    simp only [processFiles, List.length_cons]
    cases h : fileOk f <;> simp [h] <;> omega

/-! ## Claims -/

/-- **C4, counterexample.** A machine classified as a successful update
whose `shutil.rmtree` raises keeps its output directory — the exception is
only logged (oldclient.py lines 593–597) — refuting the claim's "removed if
and only if classified as successful". -/
theorem output_dir_kept_on_remove_error :
    check_firmware_update_status machineRemoveFails.classify = true ∧
    (processMachine machineRemoveFails).successDelta = 1 ∧
    (processMachine machineRemoveFails).removedDir = false :=
  ⟨rfl, rfl, rfl⟩

/-- **C4 (amended).** A machine's output directory is removed only if its
update was classified as successful — machines that failed preparation,
extraction, or classification (including those whose artifacts were
uploaded) always keep their output directory — and for a machine classified
as successful the directory ends up removed exactly when it exists and the
removal call completes without raising (a removal error is logged and leaves
the directory in place). -/
theorem output_dir_removal_policy (m : MachineEnv) :
    ((processMachine m).removedDir = true →
      m.prep = true ∧ m.extract = true ∧
        check_firmware_update_status m.classify = true) ∧
    (m.prep = true → m.extract = true →
      check_firmware_update_status m.classify = true →
      (processMachine m).removedDir = (m.outputDirPresent && m.removeOk)) := by
  unfold processMachine
  cases hp : m.prep <;> cases he : m.extract <;>
    cases hcls : check_firmware_update_status m.classify <;> simp [hp, he, hcls]

/-- Witness for `output_dir_removal_policy`: a clean successful run removes
the existing directory. -/
theorem output_dir_removal_policy_witness :
    (processMachine machineCleanRun).removedDir =
      (machineCleanRun.outputDirPresent && machineCleanRun.removeOk) :=
  (output_dir_removal_policy machineCleanRun).2 rfl rfl rfl

/-- **C5.** At the end of a run, the downstream trigger is cleared whenever
the output root contains zero machine subdirectories, regardless of the
failure count; otherwise the trigger is set exactly when the failure count
is positive. -/
theorem trigger_decision (o f : Nat) :
    (o = 0 → master_signal_after o f = false) ∧
    (o ≠ 0 → (master_signal_after o f = true ↔ 0 < f)) := by
  unfold master_signal_after write_master_signal
  constructor
  · intro h; simp [h]
  · intro h; by_cases hf : 0 < f <;> simp [h, hf]

/-- Witness for `trigger_decision` at concrete inputs. -/
theorem trigger_decision_witness :
    master_signal_after 0 5 = false ∧ master_signal_after 2 1 = true :=
  ⟨(trigger_decision 0 5).1 rfl,
   ((trigger_decision 2 1).2 (by decide)).mpr (by decide)⟩

/-- **C6.** Each file is attempted at most 3 times (and at least once); a
1-second sleep follows each failed attempt other than the last, so the sleep
count is always one less than the attempt count; a file that is never
uploaded used all 3 attempts (2 retries) and slept twice; and the batch loop
counts every file as either uploaded or failed, continuing past failures
rather than aborting. -/
theorem upload_retry_policy :
    (∀ s : Nat → Bool,
      1 ≤ (attemptFile s).attempts ∧ (attemptFile s).attempts ≤ 3 ∧
      (attemptFile s).sleeps = (attemptFile s).attempts - 1 ∧
      ((attemptFile s).ok = false →
        (attemptFile s).attempts = 3 ∧ (attemptFile s).sleeps = 2)) ∧
    (∀ files : List (Nat → Bool),
      (processFiles files).1 + (processFiles files).2 = files.length) := by
  refine ⟨fun s => ?_, processFiles_total⟩
  rw [attemptFile_eq]
  cases h0 : s 0 <;> cases h1 : s 1 <;> cases h2 : s 2 <;> simp [h0, h1, h2]

/-- Witness for `upload_retry_policy`: a file that always fails uses exactly
3 attempts and 2 sleeps. -/
theorem upload_retry_policy_witness :
    (attemptFile (fun _ => false)).attempts = 3 ∧
    (attemptFile (fun _ => false)).sleeps = 2 :=
  (upload_retry_policy.1 (fun _ => false)).2.2.2 rfl

/-- **C1, counterexample.** A machine that passed preparation and extraction
and whose `installSetLogs.log` is missing is classified as a failed update
(the failure counter is incremented) — but, contrary to the claim, `main`
then DOES invoke the MinIO upload for it (oldclient.py lines 598–602). -/
theorem missing_log_upload_attempted :
    check_firmware_update_status machineMissingLog.classify = false ∧
    (processMachine machineMissingLog).failureDelta = 1 ∧
    (processMachine machineMissingLog).uploadAttempted = true :=
  ⟨rfl, rfl, rfl⟩

/-- **C1 (amended).** For every machine that passed preparation and
extraction, if either `installSetLogs.log` or `ciDebug.log` is missing from
the machine's output directory, classification is treated as a failure (the
update is counted as failed, not as a success) and the upload to object
storage IS attempted for that machine. -/
theorem missing_log_classified_failed (m : MachineEnv) (hp : m.prep = true)
    (he : m.extract = true)
    (hlog : m.classify.installSetLogsExists = false ∨
      m.classify.ciDebugExists = false) :
    check_firmware_update_status m.classify = false ∧
    (processMachine m).successDelta = 0 ∧
    (processMachine m).failureDelta = 1 ∧
    (processMachine m).uploadAttempted = true := by
  have hcls : check_firmware_update_status m.classify = false := by
    unfold check_firmware_update_status
    rcases hlog with h | h
    · simp [h]
    · cases hi : m.classify.installSetLogsExists <;> simp [h, hi]
  refine ⟨hcls, ?_, ?_, ?_⟩ <;> unfold processMachine <;> simp [hp, he, hcls]

/-- Witness for `missing_log_classified_failed` at a concrete machine. -/
theorem missing_log_classified_failed_witness :
    check_firmware_update_status machineMissingLog.classify = false ∧
    (processMachine machineMissingLog).successDelta = 0 ∧
    (processMachine machineMissingLog).failureDelta = 1 ∧
    (processMachine machineMissingLog).uploadAttempted = true :=
  missing_log_classified_failed machineMissingLog rfl rfl (Or.inl rfl)

/-- **C2.** For a batch whose local directory exists and whose bucket
check/creation succeeds (which presupposes the client was constructed), the
upload returns success exactly when there were zero files or the uploaded
fraction is at least 80% — so 8 uploaded out of 10 succeeds and 7 out of 10
fails. -/
theorem upload_success_iff (env : UploadEnv) (hc : env.clientOk = true)
    (hd : env.dirExists = true) (hb : env.bucketOk = true) :
    (upload_to_minio env).ok = true ↔
      (env.files.length = 0 ∨
        (80 : ℚ) / 100 ≤
          ((upload_to_minio env).uploaded : ℚ) / (env.files.length : ℚ)) := by
  unfold upload_to_minio uploadBody
  by_cases ht : env.files.length = 0
  · simp [hc, hd, hb, ht]
  · have hlen : 0 < env.files.length := Nat.pos_of_ne_zero ht
    have hlenQ : (0 : ℚ) < (env.files.length : ℚ) := by exact_mod_cast hlen
    by_cases hu : 0 < (processFiles env.files).1
    · by_cases hr : env.files.length * 4 ≤ (processFiles env.files).1 * 5
      · simp only [hc, hd, hb, ht, hu, hr]
        simp [ht]
        rw [div_le_div_iff₀ (by norm_num : (0 : ℚ) < 100) hlenQ]
        have h80 : 80 * env.files.length ≤ (processFiles env.files).1 * 100 := by
          omega
        exact_mod_cast h80
      · simp only [hc, hd, hb, ht, hu, hr]
        simp [ht]
        rw [div_lt_div_iff₀ hlenQ (by norm_num : (0 : ℚ) < 100)]
        have h80 : (processFiles env.files).1 * 100 < 80 * env.files.length := by
          omega
        exact_mod_cast h80
    · have h0 : (processFiles env.files).1 = 0 := by omega
      simp [hc, hd, hb, ht, hu, h0]

/-- Witness for `upload_success_iff` on the 8-of-10 batch. -/
theorem upload_success_iff_witness :
    (upload_to_minio envEightOfTen).ok = true ↔
      (envEightOfTen.files.length = 0 ∨
        (80 : ℚ) / 100 ≤
          ((upload_to_minio envEightOfTen).uploaded : ℚ) /
            (envEightOfTen.files.length : ℚ)) :=
  upload_success_iff envEightOfTen rfl rfl rfl

/-- **C7.** If the machine's local output directory is missing, the upload
returns failure with no bucket operation reached and zero counters. -/
theorem upload_missing_dir (env : UploadEnv) (h : env.dirExists = false) :
    (upload_to_minio env).ok = false ∧
    (upload_to_minio env).bucketTouched = false ∧
    (upload_to_minio env).uploaded = 0 ∧ (upload_to_minio env).errors = 0 := by
  unfold upload_to_minio uploadBody
  cases hc : env.clientOk <;> simp [h, hc, noEffect]

/-- Witness for `upload_missing_dir` at a concrete environment. -/
theorem upload_missing_dir_witness :
    (upload_to_minio ⟨true, false, true, [fun _ => true]⟩).ok = false ∧
    (upload_to_minio ⟨true, false, true, [fun _ => true]⟩).bucketTouched = false ∧
    (upload_to_minio ⟨true, false, true, [fun _ => true]⟩).uploaded = 0 ∧
    (upload_to_minio ⟨true, false, true, [fun _ => true]⟩).errors = 0 :=
  upload_missing_dir ⟨true, false, true, [fun _ => true]⟩ rfl

/-- **C9.** The analytics counter update is best-effort: for every
environment and every pair of deltas it returns normally with one of the two
normal outcomes; every failure of the store is swallowed into the `(false,
none)` outcome rather than propagated; and when the store works, the
document is created-or-incremented with the given deltas. -/
theorem analytics_best_effort (env : MongoEnv) (s f : Int) :
    (update_machine_status_counts env s f = (false, none) ∨
      update_machine_status_counts env s f = (true, some (applyCounts env.doc s f))) ∧
    ((mongoBody env s f).isOk = false →
      update_machine_status_counts env s f = (false, none)) ∧
    (env.connectOk = true → env.findOk = true → env.writeOk = true →
      update_machine_status_counts env s f = (true, some (applyCounts env.doc s f))) := by
  unfold update_machine_status_counts mongoBody
  cases hc : env.connectOk <;> cases hf : env.findOk <;> cases hw : env.writeOk <;>
    simp [hc, hf, hw, Except.isOk, Except.toBool]

/-- Witness for `analytics_best_effort`: a missing-config failure is
swallowed, and a working store records the deltas. -/
theorem analytics_best_effort_witness :
    update_machine_status_counts ⟨false, true, none, true⟩ 1 2 = (false, none) ∧
    update_machine_status_counts ⟨true, true, some ⟨10, 20⟩, true⟩ 1 2 =
      (true, some ⟨11, 22⟩) :=
  ⟨(analytics_best_effort ⟨false, true, none, true⟩ 1 2).2.1 rfl,
   (analytics_best_effort ⟨true, true, some ⟨10, 20⟩, true⟩ 1 2).2.2 rfl rfl rfl⟩

/-- **C10.** The uploader is total at its public interface: whenever its body
escapes with an exception the caller still receives the plain failure result
(never a propagated exception), and on a normal body result the caller
receives exactly that result — so a boolean comes back in every case. -/
theorem upload_total_interface (env : UploadEnv) :
    ((uploadBody env).isOk = false → upload_to_minio env = noEffect false) ∧
    (∀ r, uploadBody env = Except.ok r → upload_to_minio env = r) := by
  unfold upload_to_minio
  cases h : uploadBody env <;> simp [h, Except.isOk, Except.toBool]

/-- Witness for `upload_total_interface`: a raising client construction
still yields a plain `False` return. -/
theorem upload_total_interface_witness :
    upload_to_minio ⟨false, true, true, []⟩ = noEffect false :=
  (upload_total_interface ⟨false, true, true, []⟩).1 rfl

/-! ## The walk enumeration (C8) -/

mutual
/-- Every path the walk yields is nonempty and names a file of the tree. -/
theorem walkFiles_sound : ∀ (t : FTree) (p : List Nat), p ∈ walkFiles t →
    p ≠ [] ∧ hasFile t p = true
  | FTree.node files subs, p, hp => by
    rw [walkFiles] at hp
    rcases List.mem_append.1 hp with h | h
    · rcases List.mem_map.1 h with ⟨f, hf, rfl⟩
      have hmem : f ∈ files := by simpa [sortNat] using hf
      exact ⟨by simp, List.elem_iff.mpr hmem⟩
    · rcases walkForest_sound subs p h with ⟨d, q, rfl, hq, hh⟩
      rcases List.exists_cons_of_ne_nil hq with ⟨q1, q2, rfl⟩
      exact ⟨by simp, hh⟩
/-- Every path a forest walk yields is a subdirectory name followed by a
nonempty path naming a file under that subdirectory. -/
theorem walkForest_sound : ∀ (s : FForest) (p : List Nat), p ∈ walkForest s →
    ∃ d q, p = d :: q ∧ q ≠ [] ∧ hasFileForest s d q = true
  | FForest.nil, p, hp => by simp [walkForest] at hp
  | FForest.cons name t rest, p, hp => by
    rw [walkForest] at hp
    rcases List.mem_append.1 hp with h | h
    · rcases List.mem_map.1 h with ⟨q, hq, rfl⟩
      have hs := walkFiles_sound t q hq
      refine ⟨name, q, rfl, hs.1, ?_⟩
      rw [hasFileForest]
      simp [hs.2]
    · rcases walkForest_sound rest p h with ⟨d, q, rfl, hq, hh⟩
      refine ⟨d, q, rfl, hq, ?_⟩
      rw [hasFileForest]
      simp [hh]
end

/-- The root-level entries of a forest walk are empty: every yielded path
has at least two components. -/
theorem topOnly_walkForest (s : FForest) : topOnly (walkForest s) = [] := by
  rw [topOnly, List.filterMap_eq_nil_iff]
  intro p hp
  rcases walkForest_sound s p hp with ⟨d, q, rfl, hq, _⟩
  rcases List.exists_cons_of_ne_nil hq with ⟨q1, q2, rfl⟩
  rfl

/-- **C8 (amended).** The walk yields files only — every enumerated relative
path names a file of the tree — and the files of each directory are yielded
in sorted order (shown at the root of every subtree: the root-level portion
of the enumeration is exactly the sorted root file list).  The full
cross-directory sequence, however, is not globally sorted (see the
counterexample `walk_not_globally_sorted`). -/
theorem walk_files_enumeration (t : FTree) :
    (∀ p ∈ walkFiles t, hasFile t p = true) ∧
    topOnly (walkFiles t) = sortNat (rootFiles t) ∧
    (topOnly (walkFiles t)).Sorted (· ≤ ·) := by
  obtain ⟨files, subs⟩ := t
  have htop : topOnly (walkFiles (FTree.node files subs)) = sortNat files := by
    rw [walkFiles, topOnly, List.filterMap_append]
    rw [show List.filterMap (fun p => match p with | [f] => some f | _ => none)
        (walkForest subs) = [] from topOnly_walkForest subs]
    rw [List.filterMap_map, List.append_nil]
    simp [Function.comp_def]
  refine ⟨fun p hp => (walkFiles_sound _ p hp).2, htop, ?_⟩
  rw [htop]
  exact List.sorted_insertionSort _ files

/-- Witness for `walk_files_enumeration`: the path `3/4` yielded for
`treeUnsorted` names a file of the tree. -/
theorem walk_files_enumeration_witness :
    hasFile treeUnsorted [3, 4] = true :=
  (walk_files_enumeration treeUnsorted).1 [3, 4]
    (by rw [treeUnsorted, walkFiles, walkForest, walkFiles, walkForest]; simp [sortNat])

/-- **C8, counterexample.** The claim's "resulting sequence of paths is
sorted" fails: for a tree with root file `5` and subdirectory `3` holding
file `4`, the walk yields `5` before `3/4`, which is not sorted in path
order (the root's files always precede subdirectory files regardless of
name, and subdirectories are visited in listing order, not sorted order). -/
theorem walk_not_globally_sorted :
    walkFiles treeUnsorted = [[5], [3, 4]] ∧
    pathsSorted (walkFiles treeUnsorted) = false := by
  have h : walkFiles treeUnsorted = [[5], [3, 4]] := by
    rw [treeUnsorted, walkFiles, walkForest, walkFiles, walkForest]
    simp [sortNat]
  exact ⟨h, by rw [h]; rfl⟩

/-! ## The sanitizer (C3) -/

/-- `allowedChar` splits into the alphanumeric class and the dot/dash class. -/
theorem allowedChar_split (c : Char) :
    allowedChar c = (isLowerAlphaNum c || isDotDash c) := by
  rw [allowedChar, isDotDash, Bool.or_assoc]

/-- Alphanumeric characters are not dots or dashes. -/
theorem alnum_not_dotdash (c : Char) (h : isLowerAlphaNum c = true) :
    isDotDash c = false := by
  rw [isDotDash]
  have h1 : (c == '.') = false := by
    cases hc : c == '.'
    · rfl
    · exact absurd (by rw [beq_iff_eq.mp hc] at h; exact h) (by decide)
  have h2 : (c == '-') = false := by
    cases hc : c == '-'
    · rfl
    · exact absurd (by rw [beq_iff_eq.mp hc] at h; exact h) (by decide)
  rw [h1, h2]
  rfl

/-- An allowed character that is not a dot or dash is alphanumeric. -/
theorem alnum_of_allowed (c : Char) (h : allowedChar c = true)
    (hd : isDotDash c = false) : isLowerAlphaNum c = true := by
  rw [allowedChar_split, hd, Bool.or_false] at h
  exact h

/-- ASCII lowercasing fixes every allowed character. -/
theorem lowerCh_allowed (c : Char) (h : allowedChar c = true) : lowerCh c = c := by
  rw [allowedChar, Bool.or_eq_true, Bool.or_eq_true] at h
  rcases h with (h | h) | h
  · rw [isLowerAlphaNum, Bool.or_eq_true, Bool.and_eq_true, Bool.and_eq_true] at h
    simp only [decide_eq_true_eq] at h
    rw [lowerCh, if_neg]
    omega
  · rw [beq_iff_eq.mp h]; decide
  · rw [beq_iff_eq.mp h]; decide

/-- Separator replacement fixes every allowed character. -/
theorem replaceSep_allowed (c : Char) (h : allowedChar c = true) :
    replaceSep c = c := by
  rw [replaceSep, if_neg]
  rintro (rfl | rfl) <;> exact absurd h (by decide)

/-- The lowercase/replace map is the identity on all-allowed strings. -/
theorem map_fix_allowed (l : List Char) (h : ∀ c ∈ l, allowedChar c = true) :
    l.map (fun c => replaceSep (lowerCh c)) = l := by
  induction l with
  | nil => rfl
  | cons a rest ih =>
    have ha := h a (List.mem_cons_self a rest)
    simp only [List.map_cons, lowerCh_allowed a ha, replaceSep_allowed a ha,
      List.cons.injEq, true_and]
    exact ih fun c hc => h c (List.mem_cons_of_mem a hc)

/-- Dropping a list's first element preserves `noAdj`. -/
theorem noAdj_of_cons (c a : Char) (l : List Char)
    (h : noAdj c (a :: l) = true) : noAdj c l = true := by
  match l with
  | [] => rfl
  | b :: rest =>
    by_cases hp : a = c ∧ b = c
    · rw [noAdj, if_pos hp] at h; cases h
    · rwa [noAdj, if_neg hp] at h

/-- A `noAdj` list stays `noAdj` when a compatible head is prepended. -/
theorem noAdj_cons (c a : Char) (M : List Char) (hM : noAdj c M = true)
    (hhead : ∀ b, M.head? = some b → ¬(a = c ∧ b = c)) :
    noAdj c (a :: M) = true := by
  match M with
  | [] => rfl
  | b :: rest =>
    rw [noAdj, if_neg (hhead b rfl)]
    exact hM

/-- The head of a `noAdj (a :: b :: l)` extraction: the pair is compatible
and the tail is `noAdj`. -/
theorem noAdj_cons_cons (c a b : Char) (l : List Char)
    (h : noAdj c (a :: b :: l) = true) :
    ¬(a = c ∧ b = c) ∧ noAdj c (b :: l) = true := by
  by_cases hp : a = c ∧ b = c
  · rw [noAdj, if_pos hp] at h; cases h
  · rw [noAdj, if_neg hp] at h; exact ⟨hp, h⟩

/-- `noAdj` of an append gives `noAdj` of the left part. -/
theorem noAdj_append_left (c : Char) :
    ∀ (x y : List Char), noAdj c (x ++ y) = true → noAdj c x = true
  | [], _, _ => rfl
  | [_], _, _ => rfl
  | a :: b :: rest, y, h => by
    have h' : noAdj c (a :: b :: (rest ++ y)) = true := h
    rcases noAdj_cons_cons c a b (rest ++ y) h' with ⟨hp, hrest⟩
    rw [noAdj, if_neg hp]
    exact noAdj_append_left c (b :: rest) y hrest

/-- Membership is preserved backwards through run collapsing. -/
theorem mem_collapseRuns (c : Char) :
    ∀ (l : List Char) (x : Char), x ∈ collapseRuns c l → x ∈ l
  | [], _, h => by simp [collapseRuns] at h
  | [a], x, h => by simpa [collapseRuns] using h
  | a :: b :: rest, x, h => by
    by_cases hab : a = c ∧ b = c
    · rw [collapseRuns, if_pos hab] at h
      exact List.mem_cons_of_mem a (mem_collapseRuns c (b :: rest) x h)
    · rw [collapseRuns, if_neg hab] at h
      rcases List.mem_cons.1 h with rfl | h
      · exact List.mem_cons_self _ _
      · exact List.mem_cons_of_mem a (mem_collapseRuns c (b :: rest) x h)

/-- Run collapsing preserves the head of the list. -/
theorem head?_collapseRuns (c : Char) :
    ∀ l : List Char, (collapseRuns c l).head? = l.head?
  | [] => rfl
  | [_] => rfl
  | a :: b :: rest => by
    by_cases hab : a = c ∧ b = c
    · rw [collapseRuns, if_pos hab, head?_collapseRuns c (b :: rest)]
      simp only [List.head?_cons, Option.some.injEq]
      rw [hab.1, hab.2]
    · rw [collapseRuns, if_neg hab]; rfl

/-- After collapsing runs of `c`, no two adjacent `c`s remain. -/
theorem noAdj_collapseRuns_self (c : Char) :
    ∀ l : List Char, noAdj c (collapseRuns c l) = true
  | [] => rfl
  | [_] => rfl
  | a :: b :: rest => by
    by_cases hab : a = c ∧ b = c
    · rw [collapseRuns, if_pos hab]
      exact noAdj_collapseRuns_self c (b :: rest)
    · rw [collapseRuns, if_neg hab]
      refine noAdj_cons c a _ (noAdj_collapseRuns_self c (b :: rest)) ?_
      intro x hx
      rw [head?_collapseRuns, List.head?_cons, Option.some.injEq] at hx
      subst hx
      exact hab

/-- Collapsing runs of `c` preserves `noAdj d` for any other character. -/
theorem noAdj_collapseRuns_other (c d : Char) :
    ∀ l : List Char, noAdj d l = true → noAdj d (collapseRuns c l) = true
  | [], _ => rfl
  | [_], _ => rfl
  | a :: b :: rest, h => by
    rcases noAdj_cons_cons d a b rest h with ⟨hp, hrest⟩
    by_cases hab : a = c ∧ b = c
    · rw [collapseRuns, if_pos hab]
      exact noAdj_collapseRuns_other c d (b :: rest) hrest
    · rw [collapseRuns, if_neg hab]
      refine noAdj_cons d a _ (noAdj_collapseRuns_other c d (b :: rest) hrest) ?_
      intro x hx
      rw [head?_collapseRuns, List.head?_cons, Option.some.injEq] at hx
      subst hx
      exact hp

/-- Run collapsing is the identity on lists with no adjacent `c`s. -/
theorem collapseRuns_eq_self (c : Char) :
    ∀ l : List Char, noAdj c l = true → collapseRuns c l = l
  | [], _ => rfl
  | [_], _ => rfl
  | a :: b :: rest, h => by
    rcases noAdj_cons_cons c a b rest h with ⟨hp, hrest⟩
    rw [collapseRuns, if_neg hp, collapseRuns_eq_self c (b :: rest) hrest]

/-- Membership is preserved backwards through `lstrip`. -/
theorem mem_lstrip (l : List Char) (x : Char) (h : x ∈ lstrip l) : x ∈ l :=
  (List.dropWhile_suffix isDotDash).subset h

/-- Membership is preserved backwards through `rstrip`. -/
theorem mem_rstrip (l : List Char) (x : Char) (h : x ∈ rstrip l) : x ∈ l := by
  rw [rstrip, List.mem_reverse] at h
  have h2 := (List.dropWhile_suffix isDotDash).subset h
  rwa [List.mem_reverse] at h2

/-- `rstrip` yields a prefix of its input. -/
theorem rstrip_prefixOf (l : List Char) : rstrip l <+: l := by
  have h := List.reverse_prefix.mpr (List.dropWhile_suffix (l := l.reverse) isDotDash)
  rw [List.reverse_reverse] at h
  exact h

/-- `dropWhile` preserves `noAdj`. -/
theorem noAdj_dropWhile (c : Char) (p : Char → Bool) :
    ∀ l : List Char, noAdj c l = true → noAdj c (l.dropWhile p) = true
  | [], _ => rfl
  | a :: rest, h => by
    rw [List.dropWhile_cons]
    by_cases hp : p a = true
    · rw [if_pos hp]
      exact noAdj_dropWhile c p rest (noAdj_of_cons c a rest h)
    · rw [if_neg hp]
      exact h

/-- A prefix of a `noAdj` list is `noAdj`. -/
theorem noAdj_of_prefix (c : Char) (l₁ l₂ : List Char) (h : l₁ <+: l₂)
    (hn : noAdj c l₂ = true) : noAdj c l₁ = true := by
  rcases h with ⟨t, rfl⟩
  exact noAdj_append_left c l₁ t hn

/-- The head surviving a `dropWhile p` fails `p`. -/
theorem head?_dropWhile_false (p : Char → Bool) :
    ∀ (l : List Char) (a : Char), (l.dropWhile p).head? = some a → p a = false
  | [], a, h => by simp at h
  | b :: rest, a, h => by
    rw [List.dropWhile_cons] at h
    by_cases hp : p b = true
    · rw [if_pos hp] at h
      exact head?_dropWhile_false p rest a h
    · rw [if_neg hp] at h
      rw [List.head?_cons, Option.some.injEq] at h
      subst h
      rwa [Bool.not_eq_true] at hp

/-- A nonempty prefix shares the head of the full list. -/
theorem head?_of_prefix (l₁ l₂ : List Char) (h : l₁ <+: l₂) (a : Char)
    (ha : l₁.head? = some a) : l₂.head? = some a := by
  rcases h with ⟨t, rfl⟩
  cases l₁ with
  | nil => cases ha
  | cons b r => exact ha

/-- The head of a stripped all-allowed string is alphanumeric. -/
theorem head?_stripEnds_alnum (l : List Char)
    (hall : ∀ c ∈ l, allowedChar c = true) (a : Char)
    (ha : (stripEnds l).head? = some a) : isLowerAlphaNum a = true := by
  have hmem : a ∈ stripEnds l := List.mem_of_mem_head? (Option.mem_def.mpr ha)
  have hallowed : allowedChar a = true :=
    hall a (mem_lstrip l a (mem_rstrip (lstrip l) a hmem))
  have hhead : (lstrip l).head? = some a :=
    head?_of_prefix _ _ (rstrip_prefixOf (lstrip l)) a ha
  exact alnum_of_allowed a hallowed (head?_dropWhile_false isDotDash l a hhead)

/-- The last character of a stripped all-allowed string is alphanumeric. -/
theorem getLast?_stripEnds_alnum (l : List Char)
    (hall : ∀ c ∈ l, allowedChar c = true) (a : Char)
    (ha : (stripEnds l).getLast? = some a) : isLowerAlphaNum a = true := by
  have hmem : a ∈ stripEnds l := List.mem_of_getLast?_eq_some ha
  have hallowed : allowedChar a = true :=
    hall a (mem_lstrip l a (mem_rstrip (lstrip l) a hmem))
  have hd : ((lstrip l).reverse.dropWhile isDotDash).head? = some a := by
    rw [← List.getLast?_reverse]
    exact ha
  exact alnum_of_allowed a hallowed (head?_dropWhile_false isDotDash _ a hd)

/-- `lstrip` is the identity when the head is not a dot or dash. -/
theorem lstrip_eq_self (l : List Char)
    (hhead : ∀ a, l.head? = some a → isDotDash a = false) : lstrip l = l := by
  cases l with
  | nil => rfl
  | cons a rest =>
    have h := hhead a rfl
    rw [lstrip, List.dropWhile_cons_of_neg (by simp [h])]

/-- `rstrip` is the identity when the last character is not a dot or dash. -/
theorem rstrip_eq_self (l : List Char)
    (hlast : ∀ a, l.getLast? = some a → isDotDash a = false) : rstrip l = l := by
  rw [rstrip]
  cases hrev : l.reverse with
  | nil =>
    have h0 : l = [] := List.reverse_eq_nil_iff.mp hrev
    subst h0
    rfl
  | cons a t =>
    have hl : l.getLast? = some a := by rw [← List.head?_reverse, hrev]; rfl
    have h := hlast a hl
    rw [List.dropWhile_cons_of_neg (by simp [h]), ← hrev, List.reverse_reverse]

/-- `fixHead` is the identity when the head is alphanumeric. -/
theorem fixHead_eq_self (l : List Char)
    (hhead : ∀ a, l.head? = some a → isLowerAlphaNum a = true) : fixHead l = l := by
  cases l with
  | nil => rfl
  | cons a rest => simp [fixHead, hhead a rfl]

/-- `fixLastIntent` is the identity when the last character is alphanumeric. -/
theorem fixLastIntent_eq_self (l : List Char)
    (hlast : ∀ a, l.getLast? = some a → isLowerAlphaNum a = true) :
    fixLastIntent l = l := by
  rw [fixLastIntent]
  cases hg : l.getLast? with
  | none => rfl
  | some a => simp [hlast a hg]

/-- The stripped, collapsed form of an all-allowed string satisfies the
`goodName` invariant, and the two intended boundary fixes leave it
unchanged. -/
theorem goodName_core (m : List Char) (hall : ∀ c ∈ m, allowedChar c = true) :
    goodName (stripEnds (collapseRuns '.' (collapseRuns '-' m))) ∧
    fixLastIntent (fixHead (stripEnds (collapseRuns '.' (collapseRuns '-' m)))) =
      stripEnds (collapseRuns '.' (collapseRuns '-' m)) := by
  have hall2 : ∀ c ∈ collapseRuns '.' (collapseRuns '-' m), allowedChar c = true :=
    fun c hc => hall c (mem_collapseRuns '-' m c (mem_collapseRuns '.' _ c hc))
  have hallst : ∀ c ∈ stripEnds (collapseRuns '.' (collapseRuns '-' m)),
      allowedChar c = true :=
    fun c hc => hall2 c (mem_lstrip _ c (mem_rstrip _ c hc))
  have hdash : noAdj '-' (stripEnds (collapseRuns '.' (collapseRuns '-' m))) = true := by
    refine noAdj_of_prefix '-' _ _ (rstrip_prefixOf _) ?_
    refine noAdj_dropWhile '-' isDotDash _ ?_
    exact noAdj_collapseRuns_other '.' '-' _ (noAdj_collapseRuns_self '-' m)
  have hdot : noAdj '.' (stripEnds (collapseRuns '.' (collapseRuns '-' m))) = true := by
    refine noAdj_of_prefix '.' _ _ (rstrip_prefixOf _) ?_
    refine noAdj_dropWhile '.' isDotDash _ ?_
    exact noAdj_collapseRuns_self '.' _
  have hhead := head?_stripEnds_alnum _ hall2
  have hlast := getLast?_stripEnds_alnum _ hall2
  refine ⟨⟨hallst, hdash, hdot, hhead, hlast⟩, ?_⟩
  rw [fixHead_eq_self _ hhead, fixLastIntent_eq_self _ hlast]

/-- The intended sanitizer's output always satisfies `goodName`. -/
theorem goodName_sanitize (s : List Char) : goodName (sanitize_name_intent s) := by
  have hall : ∀ c ∈ (s.map (fun c => replaceSep (lowerCh c))).filter allowedChar,
      allowedChar c = true := fun c hc => (List.mem_filter.mp hc).2
  have h := goodName_core _ hall
  rw [sanitize_name_intent, h.2]
  exact h.1

/-- The intended sanitizer is the identity on `goodName` strings. -/
theorem sanitize_eq_self_of_good (l : List Char) (h : goodName l) :
    sanitize_name_intent l = l := by
  obtain ⟨hall, hdash, hdot, hhead, hlast⟩ := h
  have hh' : ∀ a, l.head? = some a → isDotDash a = false :=
    fun a ha => alnum_not_dotdash a (hhead a ha)
  have hl' : ∀ a, l.getLast? = some a → isDotDash a = false :=
    fun a ha => alnum_not_dotdash a (hlast a ha)
  rw [sanitize_name_intent, map_fix_allowed l hall, List.filter_eq_self.mpr hall,
    collapseRuns_eq_self '-' l hdash, collapseRuns_eq_self '.' l hdot,
    stripEnds, lstrip_eq_self l hh', rstrip_eq_self l hl',
    fixHead_eq_self l hhead, fixLastIntent_eq_self l hlast]

/-- The sanitizer as the spec and the source's own comment intend it (the
last-character fix firing only on a non-alphanumeric last character) is
idempotent, supporting that the spec states the intent and the source's
start-anchored `re.match(r"[a-z0-9]$", ...)` is the slip. -/
theorem sanitizeIntent_idempotent (s : List Char) :
    sanitize_name_intent (sanitize_name_intent s) = sanitize_name_intent s :=
  sanitize_eq_self_of_good _ (goodName_sanitize s)

/-- **C3.** The sanitizer in the source is NOT idempotent, although the
spec's intended rules are (`sanitizeIntent_idempotent`): because
`re.match(r"[a-z0-9]$", name)` anchors at the start of the string, the code
appends `z` to every name longer than one character — on `"ab"` one
application yields `"abz"` and a second application yields `"abzz"`.  The
remainder of the claim does hold: the function is total (the embedding is a
total Lean function, as the Python raises on no input) and the empty input
yields the empty output. -/
theorem sanitize_not_idempotent :
    sanitizeStr "ab" = "abz" ∧ sanitizeStr (sanitizeStr "ab") = "abzz" ∧
    sanitizeStr (sanitizeStr "ab") ≠ sanitizeStr "ab" ∧
    sanitizeStr "" = "" := by
  refine ⟨?_, ?_, ?_, rfl⟩ <;> decide

end Pipeline
